import Mathlib

/-
Verification of the mesh asset pipeline: the binary mesh compiler
(tools/compile_mesh.py) and its companion validator (tools/validate_mesh.py).

The Python code is shallowly embedded:

* A source file is modelled as a list of already-tokenized directive lines
  (ObjLine).  Both the compiler and the validator recognize exactly the
  directives v / vn / vt / f and ignore every other line, so a shared
  abstraction is faithful to both parsers.  Numeric payloads are represented
  as rationals; float32 rounding is not modelled (all concrete inputs used
  below are exactly representable).
* Fallible Python operations (list indexing that can raise IndexError,
  reductions over empty arrays) are modelled with Except / Option.
* The tangent-space calculator works over real numbers, since it divides by
  Euclidean norms (square roots).
-/

abbrev Vec3 := ℚ × ℚ × ℚ

abbrev Vec2 := ℚ × ℚ

/-- One already-tokenized line of the source geometry text.  A well-formed
`v`/`vn`/`vt` line carries its numeric payload; a face line carries its raw
reference tokens (`parts[1:]` in the Python code); every other line kind
(comments, materials, groups) is `other` and is ignored by both tools. -/
inductive ObjLine where
  | v (x y z : ℚ)
  | vn (x y z : ℚ)
  | vt (u w : ℚ)
  | f (toks : List String)
  | other
deriving DecidableEq

/-- `temp_positions`: payloads of the `v` lines, in file order. -/
def objPositions : List ObjLine → List Vec3
  | [] => []
  | .v x y z :: rest => (x, y, z) :: objPositions rest
  | _ :: rest => objPositions rest

/-- `temp_normals`: payloads of the `vn` lines, in file order. -/
def objNormals : List ObjLine → List Vec3
  | [] => []
  | .vn x y z :: rest => (x, y, z) :: objNormals rest
  | _ :: rest => objNormals rest

/-- `temp_uvs`: payloads of the `vt` lines, in file order. -/
def objUVs : List ObjLine → List Vec2
  | [] => []
  | .vt u w :: rest => (u, w) :: objUVs rest
  | _ :: rest => objUVs rest

/-- `face_lines`: token lists of the `f` lines, in file order. -/
def objFaces : List ObjLine → List (List String)
  | [] => []
  | .f toks :: rest => toks :: objFaces rest
  | _ :: rest => objFaces rest

/-- Python list indexing `l[i]`: nonnegative indices from the front,
negative indices wrap from the back, anything out of range raises
IndexError (modelled as `none`). -/
def pyGet (l : List α) (i : Int) : Option α :=
  if 0 ≤ i then l.get? i.toNat
  else if 0 ≤ i + l.length then l.get? (i + l.length).toNat
  else none

/-- Split a character list at every occurrence of the separator, keeping
empty groups, exactly like the Python `str.split` with an explicit
separator: `"1//".split('/') == ['1', '', '']` and `"".split('/') == ['']`. -/
def splitChars (sep : Char) : List Char → List (List Char)
  | [] => [[]]
  | c :: rest =>
    if c = sep then [] :: splitChars sep rest
    else
      match splitChars sep rest with
      | [] => [[c]]
      | g :: gs => (c :: g) :: gs

/-- Python `s.split(sep)` for the one-character separators used here. -/
def pySplit (s : String) (sep : Char) : List String :=
  (splitChars sep s.data).map String.mk

/-- Decimal digit predicate. -/
def isDig (c : Char) : Bool := 48 ≤ c.toNat && c.toNat ≤ 57

/-- Value of a digit string, most significant first. -/
def natOfDigits (cs : List Char) : Nat :=
  cs.foldl (fun n c => 10 * n + (c.toNat - 48)) 0

/-- Python `int(s)` on the strings appearing in face token sub-fields:
an optional leading minus sign followed by decimal digits parses to that
integer, anything else raises ValueError (`none`). -/
def parseIntChars : List Char → Option Int
  | [] => none
  | '-' :: rest =>
    if rest ≠ [] ∧ rest.all isDig then some (-(natOfDigits rest : Int)) else none
  | cs => if cs.all isDig then some ((natOfDigits cs : Int)) else none

/-- `int(s)` as a total function; the fallback value is never reached on
the well-formed numerals the claims exercise. -/
def pyInt (s : String) : Int :=
  (parseIntChars s.data).getD 0

/-- `int(x) - 1 if x else -1` applied to one sub-field of a face token. -/
def refIdx (s : String) : Int :=
  if s = "" then -1 else pyInt s - 1

/-- `(vertex_str.split('/') + [''] * 3)[:3]` mapped through `refIdx`:
the 0-based (position, texcoord, normal) index triple a face reference
token resolves to, with -1 meaning "absent, use the default". -/
def tokenIdxs (s : String) : Int × Int × Int :=
  match (pySplit s '/' ++ ["", "", ""]).take 3 with
  | [a, b, c] => (refIdx a, refIdx b, refIdx c)
  | _ => (-1, -1, -1)

/-- One record of `final_vertices`: resolved position, normal and texcoord. -/
structure WVertex where
  pos : Vec3
  norm : Vec3
  uv : Vec2
deriving DecidableEq

/-- The mutable state of the welding loop: `final_vertices`,
`final_indices` and the `vertex_map` dict (an association list keyed by the
literal token string; entries are only ever inserted once, so front-biased
lookup agrees with the Python dict). -/
structure WeldState where
  verts : List WVertex
  inds : List Nat
  vmap : List (String × Nat)
deriving DecidableEq

/-- Failures of a compiler run. `emptyGeometry` is the explicit
"No vertices or faces found" early return; `indexError` is an unhandled
Python IndexError while resolving a face token; `numpyError` is the
unhandled ValueError numpy raises when reducing an empty position array. -/
inductive CompErr where
  | emptyGeometry
  | indexError
  | numpyError
deriving DecidableEq

/-- Resolve one face token into a `WVertex`: position from `temp_positions`
unless the index is -1 (default origin), normal default `[0,1,0]`, texcoord
default `[0,0]`.  `none` models the unhandled IndexError on an
out-of-range index. -/
def resolveVertex (P N : List Vec3) (T : List Vec2) (s : String) : Option WVertex := do
  let (vi, ti, ni) := tokenIdxs s
  let pos ← if vi = -1 then some ((0 : ℚ), (0 : ℚ), (0 : ℚ)) else pyGet P vi
  let norm ← if ni = -1 then some ((0 : ℚ), (1 : ℚ), (0 : ℚ)) else pyGet N ni
  let uv ← if ti = -1 then some ((0 : ℚ), (0 : ℚ)) else pyGet T ti
  pure ⟨pos, norm, uv⟩

/-- Process one face token: a token already in `vertex_map` only appends
its recorded index; a fresh token appends the next index, records the
mapping and appends the newly resolved vertex. -/
def weldToken (P N : List Vec3) (T : List Vec2) (st : WeldState) (s : String) :
    Except CompErr WeldState :=
  match st.vmap.lookup s with
  | some k => .ok { st with inds := st.inds ++ [k] }
  | none =>
    match resolveVertex P N T s with
    | none => .error .indexError
    | some w =>
      .ok ⟨st.verts ++ [w], st.inds ++ [st.verts.length], (s, st.verts.length) :: st.vmap⟩

/-- Process a list of face tokens in order (the Python double loop over
3-token chunks visits exactly the tokens of the expanded face, in order). -/
def weldTokens (P N : List Vec3) (T : List Vec2) (st : WeldState) :
    List String → Except CompErr WeldState
  | [] => .ok st
  | s :: rest => do
    let st1 ← weldToken P N T st s
    weldTokens P N T st1 rest

/-- Quad expansion `[f[0], f[1], f[2], f[0], f[2], f[3]]`; any other arity
is returned unchanged. -/
def expandFace (face : List String) : List String :=
  match face with
  | [a, b, c, d] => [a, b, c, a, c, d]
  | _ => face

/-- A face the welder keeps: exactly 3 or exactly 4 reference tokens. -/
def goodArity (face : List String) : Bool :=
  face.length = 3 || face.length = 4

/-- Process one face line: triangles are welded directly, quads are
expanded by the fixed fan split first, and any other arity is skipped with
a warning (the state is returned unchanged). -/
def weldFace (P N : List Vec3) (T : List Vec2) (st : WeldState) (face : List String) :
    Except CompErr WeldState :=
  if goodArity face then weldTokens P N T st (expandFace face) else .ok st

/-- Process all face lines in file order. -/
def weldFaces (P N : List Vec3) (T : List Vec2) (st : WeldState) :
    List (List String) → Except CompErr WeldState
  | [] => .ok st
  | face :: rest => do
    let st1 ← weldFace P N T st face
    weldFaces P N T st1 rest

/-- Number of faces the welder skips with a warning. -/
def skippedFaces (faces : List (List String)) : Nat :=
  (faces.filter (fun f => !goodArity f)).length

/-- Component-wise minimum of two 3-vectors. -/
def vmin3 (a b : Vec3) : Vec3 := (min a.1 b.1, min a.2.1 b.2.1, min a.2.2 b.2.2)

/-- Component-wise maximum of two 3-vectors. -/
def vmax3 (a b : Vec3) : Vec3 := (max a.1 b.1, max a.2.1 b.2.1, max a.2.2 b.2.2)

/-- `np.min(positions, axis=0)` over a nonempty list. -/
def aabbMinOf (p : Vec3) (ps : List Vec3) : Vec3 := ps.foldl vmin3 p

/-- `np.max(positions, axis=0)` over a nonempty list. -/
def aabbMaxOf (p : Vec3) (ps : List Vec3) : Vec3 := ps.foldl vmax3 p

/-- The in-memory result of a successful compile, just before serialization:
welded vertices, index buffer, and the AABB corners that go into the header. -/
structure Mesh where
  verts : List WVertex
  inds : List Nat
  aabbMin : Vec3
  aabbMax : Vec3
deriving DecidableEq

/-- The post-welding steps of `compile_mesh`: `np.min`/`np.max` on an
empty welded vertex array (every face skipped) raises an unhandled
ValueError, otherwise the AABB corners are the component-wise extrema over
the welded positions. -/
def finishMesh (st : WeldState) : Except CompErr Mesh :=
  match st.verts with
  | [] => .error .numpyError
  | w :: ws =>
    let ps := (w :: ws).map WVertex.pos
    .ok ⟨st.verts, st.inds, aabbMinOf ps.head! ps.tail, aabbMaxOf ps.head! ps.tail⟩

/-- `compile_mesh`, from parsed source lines to the in-memory mesh.
Mirrors the Python control flow: the EmptyGeometry early return precedes
welding; welding can raise IndexError; everything is computed before the
single write, so a failure never touches the output path. -/
def compileMesh (src : List ObjLine) : Except CompErr Mesh :=
  let P := objPositions src
  let N := objNormals src
  let T := objUVs src
  let F := objFaces src
  if P.isEmpty || F.isEmpty then .error .emptyGeometry
  else (weldFaces P N T ⟨[], [], []⟩ F).bind finishMesh

/-- One item of a Python `struct` format string: a byte string of length
`n`, a uint32, or a float32. -/
inductive FmtItem where
  | s (n : Nat)
  | I
  | f
deriving DecidableEq

/-- `struct.calcsize` of one item (little-endian, no implicit padding). -/
def itemSize : FmtItem → Nat
  | .s n => n
  | .I => 4
  | .f => 4

/-- `struct.calcsize` of a whole format. -/
def calcsize (fmt : List FmtItem) : Nat := (fmt.map itemSize).sum

/-- The header format string `<4sIII3f3f8I`. -/
def headerFormat : List FmtItem :=
  [.s 4, .I, .I, .I, .f, .f, .f, .f, .f, .f, .I, .I, .I, .I, .I, .I, .I, .I]

/-- The per-vertex format string `<3f3f3f2f1f`
(position, normal, tangent, texcoord, padding). -/
def vertexFormat : List FmtItem :=
  [.f, .f, .f, .f, .f, .f, .f, .f, .f, .f, .f, .f]

/-- The observable shape of a written .cobj file: the header fields and the
total byte length (header + vertex records + 4 bytes per uint32 index). -/
structure MeshFile where
  magic : String
  version : Nat
  vcount : Nat
  icount : Nat
  aabbMin : Vec3
  aabbMax : Vec3
  length : Nat
deriving DecidableEq

/-- The file `compile_mesh` writes for a successfully compiled mesh. -/
def fileOf (m : Mesh) : MeshFile :=
  { magic := "CGMF"
    version := 1
    vcount := m.verts.length
    icount := m.inds.length
    aabbMin := m.aabbMin
    aabbMax := m.aabbMax
    length := calcsize headerFormat + m.verts.length * calcsize vertexFormat
      + 4 * m.inds.length }

/-- Issues the binary-mode validator (`validate_cobj_file`) can record;
each entry makes the file invalid. -/
inductive BinIssue where
  | invalidMagic (m : String)
  | zeroVertices
  | zeroIndices
  | invalidAABB (i : Nat) (mn mx : ℚ)
  | sizeMismatch (expected actual : Nat)
  | shortVertexData
  | shortIndexData
deriving DecidableEq

/-- Warnings the binary-mode validator can record; advisory only. -/
inductive BinWarning where
  | unexpectedVersion (v : Nat)
  | indexCountNotDiv3 (n : Nat)
deriving DecidableEq

/-- The structured report of the binary-mode validator. -/
structure BinReport where
  valid : Bool
  issues : List BinIssue
  warnings : List BinWarning
deriving DecidableEq

/-- The per-component AABB check `aabb_min[i] > aabb_max[i]`. -/
def aabbIssues (mn mx : Vec3) : List BinIssue :=
  (if mn.1 > mx.1 then [.invalidAABB 0 mn.1 mx.1] else [])
    ++ (if mn.2.1 > mx.2.1 then [.invalidAABB 1 mn.2.1 mx.2.1] else [])
    ++ (if mn.2.2 > mx.2.2 then [.invalidAABB 2 mn.2.2 mx.2.2] else [])

/-- `validate_cobj_file` on a readable file: magic check (early hard fail),
version warning, nonzero count checks, divisibility warning, AABB check,
the decisive expected-size check with the hard-coded 32-byte vertex stride
and 64-byte header, and the two trailing read-length checks.  The final
validity flag is the emptiness of the issue list, exactly as in the code
(the flag starts true and is forced false whenever issues exist). -/
def validateCobj (f : MeshFile) : BinReport :=
  if f.magic ≠ "CGMF" then ⟨false, [.invalidMagic f.magic], []⟩
  else
    let ws1 : List BinWarning := if f.version ≠ 1 then [.unexpectedVersion f.version] else []
    let is1 : List BinIssue :=
      (if f.vcount = 0 then [.zeroVertices] else [])
        ++ (if f.icount = 0 then [.zeroIndices] else [])
    let ws2 := ws1 ++ (if f.icount % 3 ≠ 0 then [.indexCountNotDiv3 f.icount] else [])
    let is2 := is1 ++ aabbIssues f.aabbMin f.aabbMax
    let expected := 64 + f.vcount * 32 + f.icount * 4
    let is3 := is2 ++ (if f.length ≠ expected then [.sizeMismatch expected f.length] else [])
    -- Reading the header fields consumes 4+4+4+4+12+12+32 = 72 bytes, so the
    -- trailing data reads start at offset 72 even though the size formula
    -- above uses the hard-coded header_size = 64.
    let remaining := f.length - 72
    let vread := min remaining (f.vcount * 32)
    let is4 := is3 ++ (if vread ≠ f.vcount * 32 then [.shortVertexData] else [])
    let iread := min (remaining - vread) (f.icount * 4)
    let is5 := is4 ++ (if iread ≠ f.icount * 4 then [.shortIndexData] else [])
    ⟨is5.isEmpty, is5, ws2⟩

/-- Issues the source-mode validator (`validate_obj_file`) can record.
Indices in the messages are 1-based, as printed by the tool. -/
inductive SrcIssue where
  | noVertices
  | noFaces
  | zeroNormal (i : Nat)
  | faceTooFewVerts (i : Nat)
  | vertexIndexOutOfRange (i : Nat) (idx : Int)
  | uvIndexOutOfRange (i : Nat) (idx : Int)
  | normalIndexOutOfRange (i : Nat) (idx : Int)
  | invalidIndexFormat (i : Nat) (tok : String)
  | degenerateGeometry
deriving DecidableEq

/-- Warnings the source-mode validator can record. -/
inductive SrcWarning where
  | normalNotUnit (i : Nat)
  | uvURange (i : Nat)
  | uvVRange (i : Nat)
  | faceManyVerts (i : Nat)
deriving DecidableEq

/-- The structured report of the source-mode validator. -/
structure SrcReport where
  valid : Bool
  issues : List SrcIssue
  warnings : List SrcWarning
deriving DecidableEq

/-- Squared Euclidean magnitude of a normal.  The Python code compares
`math.sqrt(q)` against 0.001 and tests `|sqrt(q) - 1| > 0.1`; over
nonnegative radicands these are equivalent to `q < 1e-6` and to
`q < 0.81 or q > 1.21`, which keeps the embedding inside the rationals. -/
def magSq (n : Vec3) : ℚ := n.1 * n.1 + n.2.1 * n.2.1 + n.2.2 * n.2.2

/-- Normal-magnitude issues: zero-length normals (`magnitude < 0.001`). -/
def normalIssues (normals : List Vec3) : List SrcIssue :=
  (normals.enum.map fun p =>
    if magSq p.2 < (1 : ℚ) / 1000000 then [SrcIssue.zeroNormal (p.1 + 1)] else []).flatten

/-- Normal-magnitude warnings: a non-zero normal whose magnitude deviates
from 1 by more than 0.1. -/
def normalWarnings (normals : List Vec3) : List SrcWarning :=
  (normals.enum.map fun p =>
    if ¬ (magSq p.2 < (1 : ℚ) / 1000000)
        ∧ (magSq p.2 < (81 : ℚ) / 100 ∨ magSq p.2 > (121 : ℚ) / 100) then
      [SrcWarning.normalNotUnit (p.1 + 1)]
    else []).flatten

/-- UV range warnings: each component ideally within [0,1]. -/
def uvWarnings (uvs : List Vec2) : List SrcWarning :=
  (uvs.enum.map fun p =>
    (if p.2.1 < 0 ∨ p.2.1 > 1 then [SrcWarning.uvURange (p.1 + 1)] else [])
      ++ (if p.2.2 < 0 ∨ p.2.2 > 1 then [SrcWarning.uvVRange (p.1 + 1)] else [])).flatten

/-- The `vn` sub-field check of one face token (only reached when the
preceding sub-fields parsed). -/
def checkTokVn (nn : Nat) (fi : Nat) (tok : String) (fs : List String) : List SrcIssue :=
  match fs.get? 2 with
  | none => []
  | some f2 =>
    if f2 = "" then []
    else
      match parseIntChars f2.data with
      | none => [.invalidIndexFormat fi tok]
      | some k => if k < 1 ∨ (nn : Int) < k then [.normalIndexOutOfRange fi k] else []

/-- The `vt` sub-field check of one face token, followed by the `vn`
check; a ValueError while parsing the `vt` sub-field aborts the rest of
the checks for this token. -/
def checkTokVt (nt nn : Nat) (fi : Nat) (tok : String) (fs : List String) : List SrcIssue :=
  match fs.get? 1 with
  | none => checkTokVn nn fi tok fs
  | some f1 =>
    if f1 = "" then checkTokVn nn fi tok fs
    else
      match parseIntChars f1.data with
      | none => [.invalidIndexFormat fi tok]
      | some k =>
        (if k < 1 ∨ (nt : Int) < k then [SrcIssue.uvIndexOutOfRange fi k] else [])
          ++ checkTokVn nn fi tok fs

/-- The index-validity checks the validator runs on one face reference
token: Python executes them sequentially inside one try block, so issues
appended before a ValueError are kept and later checks are skipped.  An
empty leading sub-field is read as index 0, which then fails the 1-based
range check. -/
def checkTok (nv nt nn : Nat) (fi : Nat) (tok : String) : List SrcIssue :=
  let fs := pySplit tok '/'
  let f0 := fs.headD ""
  match (if f0 = "" then some 0 else parseIntChars f0.data) with
  | none => [.invalidIndexFormat fi tok]
  | some k =>
    (if k < 1 ∨ (nv : Int) < k then [SrcIssue.vertexIndexOutOfRange fi k] else [])
      ++ checkTokVt nt nn fi tok fs

/-- Per-face issues: the arity floor plus every token check. -/
def faceIssues (nv nt nn : Nat) (faces : List (List String)) : List SrcIssue :=
  (faces.enum.map fun p =>
    (if p.2.length < 3 then [SrcIssue.faceTooFewVerts (p.1 + 1)] else [])
      ++ (p.2.map fun tok => checkTok nv nt nn (p.1 + 1) tok).flatten).flatten

/-- Per-face warnings: more than 4 reference tokens. -/
def faceWarnings (faces : List (List String)) : List SrcWarning :=
  (faces.enum.map fun p =>
    if p.2.length > 4 then [SrcWarning.faceManyVerts (p.1 + 1)] else []).flatten

/-- The degenerate-AABB check: when vertices exist, all three extents
below 0.001 is recorded as an issue. -/
def degenerateIssues (vertices : List Vec3) : List SrcIssue :=
  match vertices with
  | [] => []
  | p :: ps =>
    let mn := aabbMinOf p ps
    let mx := aabbMaxOf p ps
    if mx.1 - mn.1 < (1 : ℚ) / 1000 ∧ mx.2.1 - mn.2.1 < (1 : ℚ) / 1000
        ∧ mx.2.2 - mn.2.2 < (1 : ℚ) / 1000 then
      [.degenerateGeometry]
    else []

/-- `validate_obj_file` on a readable source file of well-formed lines:
structure checks, normal magnitude checks, UV range warnings, face arity
and index-range checks, and the degenerate-geometry check, in source
order.  The validity flag the function returns equals the emptiness of the
issue list (it starts true and the final step forces it false whenever any
issue was recorded). -/

def validateObj (src : List ObjLine) : SrcReport :=
  let V := objPositions src
  let N := objNormals src
  let T := objUVs src
  let F := objFaces src
  let issues : List SrcIssue :=
    (if V.length = 0 then [.noVertices] else [])
      ++ (if F.length = 0 then [.noFaces] else [])
      ++ normalIssues N
      ++ faceIssues V.length T.length N.length F
      ++ degenerateIssues V
  let warnings : List SrcWarning :=
    normalWarnings N ++ uvWarnings T ++ faceWarnings F
  ⟨issues.isEmpty, issues, warnings⟩

abbrev RV3 := ℝ × ℝ × ℝ

abbrev RV2 := ℝ × ℝ

/-- Dot product on real 3-vectors. -/
noncomputable def rdot (a b : RV3) : ℝ := a.1 * b.1 + a.2.1 * b.2.1 + a.2.2 * b.2.2

/-- Component-wise sum. -/
noncomputable def radd (a b : RV3) : RV3 := (a.1 + b.1, a.2.1 + b.2.1, a.2.2 + b.2.2)

/-- Component-wise difference. -/
noncomputable def rsub (a b : RV3) : RV3 := (a.1 - b.1, a.2.1 - b.2.1, a.2.2 - b.2.2)

/-- Scalar multiple. -/
noncomputable def rsmul (c : ℝ) (a : RV3) : RV3 := (c * a.1, c * a.2.1, c * a.2.2)

/-- `np.linalg.norm`: the Euclidean norm. -/
noncomputable def rnorm (a : RV3) : ℝ := Real.sqrt (rdot a a)

/-- The raw tangent of one triangle:
`f * (duv2.y * edge1 - duv1.y * edge2)` with
`f = 1 / (duv1.x * duv2.y - duv2.x * duv1.y)`.  The code has no guard for
a zero denominator; the field convention `1 / 0 = 0` stands in for the
inf/nan values numpy produces there, and every property proved below holds
for an arbitrary accumulated tangent, covering both conventions. -/
noncomputable def triTangent (p1 p2 p3 : RV3) (uv1 uv2 uv3 : RV2) : RV3 :=
  let edge1 := rsub p2 p1
  let edge2 := rsub p3 p1
  let du1x := uv2.1 - uv1.1
  let du1y := uv2.2 - uv1.2
  let du2x := uv3.1 - uv1.1
  let du2y := uv3.2 - uv1.2
  let f := 1 / (du1x * du2y - du2x * du1y)
  rsmul f (rsub (rsmul du2y edge1) (rsmul du1y edge2))

/-- `tangents[i] += v` on the accumulator array. -/
noncomputable def addAt (l : List RV3) (i : Nat) (v : RV3) : List RV3 :=
  l.set i (radd (((l.get? i).getD (0, 0, 0))) v)

/-- The accumulation loop `for i in range(0, len(indices), 3)`: each full
triple reads three positions and three UVs (an out-of-range index is
Python IndexError, hence `none`) and adds the triangle tangent into the
three slots; a trailing partial chunk also raises IndexError in Python. -/
noncomputable def accumGo (pos : List RV3) (uvs : List RV2) :
    List Nat → List RV3 → Option (List RV3)
  | [], acc => some acc
  | i1 :: i2 :: i3 :: rest, acc => do
    let p1 ← pos.get? i1
    let p2 ← pos.get? i2
    let p3 ← pos.get? i3
    let u1 ← uvs.get? i1
    let u2 ← uvs.get? i2
    let u3 ← uvs.get? i3
    let t := triTangent p1 p2 p3 u1 u2 u3
    accumGo pos uvs rest (addAt (addAt (addAt acc i1 t) i2 t) i3 t)
  | _, _ => none

/-- `t_ortho`: the accumulated tangent minus its projection onto the
normal. -/
noncomputable def gsOrtho (n t : RV3) : RV3 :=
  rsub t (rsmul (rdot t n) n)

/-- The dominant-axis fallback tangent: an arbitrary vector perpendicular
to the normal, chosen by comparing `abs(n[0])` with `abs(n[1])`. -/
noncomputable def fallbackTangent (n : RV3) : RV3 :=
  if |n.1| > |n.2.1| then
    (-n.2.2 * (1 / Real.sqrt (n.1 * n.1 + n.2.2 * n.2.2)), 0,
      n.1 * (1 / Real.sqrt (n.1 * n.1 + n.2.2 * n.2.2)))
  else
    (0, n.2.2 * (1 / Real.sqrt (n.2.1 * n.2.1 + n.2.2 * n.2.2)),
      -n.2.1 * (1 / Real.sqrt (n.2.1 * n.2.1 + n.2.2 * n.2.2)))

/-- The per-vertex Gram-Schmidt step with the dominant-axis fallback:
subtract the projection of the accumulated tangent onto the normal; if the
remainder has norm above 1e-6, normalize it, otherwise take the fallback. -/
noncomputable def gsTangent (n t : RV3) : RV3 :=
  if rnorm (gsOrtho n t) > 1e-6 then rsmul (1 / rnorm (gsOrtho n t)) (gsOrtho n t)
  else fallbackTangent n

/-- `calculate_tangents_bitangents`: accumulate per-triangle tangents into
a zero array shaped like `positions`, then orthonormalize per vertex
against `normals[i]` (IndexError if the normal array is shorter than the
position array).  The bitangent array is computed by the Python code but
never returned; it does not influence the tangents and is omitted. -/
noncomputable def calcTangents (pos normals : List RV3) (uvs : List RV2)
    (indices : List Nat) : Option (List RV3) := do
  let acc ← accumGo pos uvs indices (List.replicate pos.length ((0 : ℝ), (0 : ℝ), (0 : ℝ)))
  if pos.length ≤ normals.length then
    some (List.zipWith gsTangent normals acc)
  else none

/-- Projection of a compiler run onto its success payload. -/
def okPart : Except ε α → Option α
  | .ok a => some a
  | .error _ => none

/-- A one-triangle source file: three positions, three texcoords, one
triangular face. -/
def triSrc : List ObjLine :=
  [.v 0 0 0, .v 1 0 0, .v 0 1 0, .vt 0 0, .vt 1 0, .vt 0 1,
   .f ["1/1", "2/2", "3/3"]]

/-- The mesh `compile_mesh` produces from `triSrc`. -/
def triMesh : Mesh :=
  { verts := [⟨(0, 0, 0), (0, 1, 0), (0, 0)⟩, ⟨(1, 0, 0), (0, 1, 0), (1, 0)⟩,
      ⟨(0, 1, 0), (0, 1, 0), (0, 1)⟩]
    inds := [0, 1, 2]
    aabbMin := (0, 0, 0)
    aabbMax := (1, 1, 0) }

/-- A cube source: 8 corner positions, 6 UV-mapped quad faces (24 distinct
face reference tokens, so welding yields 24 vertices and 36 indices). -/
def cubeSrc : List ObjLine :=
  [.v 0 0 0, .v 1 0 0, .v 1 1 0, .v 0 1 0,
   .v 0 0 1, .v 1 0 1, .v 1 1 1, .v 0 1 1,
   .vt 0 0, .vt 1 0, .vt 1 1, .vt 0 1,
   .vt 0 0, .vt 1 0, .vt 1 1, .vt 0 1,
   .vt 0 0, .vt 1 0, .vt 1 1, .vt 0 1,
   .vt 0 0, .vt 1 0, .vt 1 1, .vt 0 1,
   .vt 0 0, .vt 1 0, .vt 1 1, .vt 0 1,
   .vt 0 0, .vt 1 0, .vt 1 1, .vt 0 1,
   .f ["1/1", "2/2", "3/3", "4/4"],
   .f ["5/5", "6/6", "7/7", "8/8"],
   .f ["1/9", "4/10", "8/11", "5/12"],
   .f ["2/13", "3/14", "7/15", "6/16"],
   .f ["1/17", "2/18", "6/19", "5/20"],
   .f ["4/21", "3/22", "7/23", "8/24"]]

/-- The welding invariant: every recorded index (in the index buffer and
in the token map) points below the current vertex count. -/
def WInv (st : WeldState) : Prop :=
  (∀ k ∈ st.inds, k < st.verts.length) ∧ (∀ p ∈ st.vmap, p.2 < st.verts.length)

/-- The token strings currently recorded in the welding map. -/
def keysOf (st : WeldState) : List String :=
  st.vmap.map Prod.fst

/-- The key set produced by folding a token list into an accumulator,
inserting each unseen token at the front. -/
def insKeys (ks : List String) (toks : List String) : List String :=
  toks.foldl (fun acc s => if s ∈ acc then acc else s :: acc) ks

/-- The face reference tokens the welder actually processes: kept faces
only, quads expanded by the fan split, in file order. -/
def keptTokens (faces : List (List String)) : List String :=
  ((faces.filter goodArity).map expandFace).flatten

/-- A positions-plus-one-face source whose face references the same
attribute triple through two differently written tokens. -/
def c3Src : List ObjLine := [.v 0 0 0, .f ["1", "1//", "1"]]

/-- A source whose three positions coincide, with one valid face. -/
def degSrc : List ObjLine := [.v 1 2 3, .v 1 2 3, .v 1 2 3, .f ["1", "2", "3"]]

/-- C1, counterexample.  The one-triangle source compiles successfully, and
the written file is 228 bytes long, not the 64 + 3*32 + 3*4 = 172 bytes the
claim's formula gives for its header counts: the vertex records are packed
with `<3f3f3f2f1f` (48 bytes each, not 32) and the packed header
`<4sIII3f3f8I` itself occupies 72 bytes (not 64). -/
theorem c1_stride_counterexample :
    (okPart (compileMesh triSrc)).map
        (fun m => ((fileOf m).length, 64 + (fileOf m).vcount * 32 + (fileOf m).icount * 4))
      = some (228, 172) ∧ (228 : Nat) ≠ 172 := by
  exact ⟨by decide, by decide⟩

/-- C1, amended.  For every successful compile, the written file's byte
length equals 72 + vertex_count*48 + index_count*4, where vertex_count and
index_count are the header counts: each vertex record occupies exactly 48
bytes and the packed header occupies 72 bytes. -/
theorem c1_file_length_amended (src : List ObjLine) (m : Mesh)
    (h : compileMesh src = .ok m) :
    (fileOf m).vcount = m.verts.length ∧ (fileOf m).icount = m.inds.length ∧
    (fileOf m).length = 72 + (fileOf m).vcount * 48 + (fileOf m).icount * 4 := by
  refine ⟨rfl, rfl, ?_⟩
  show calcsize headerFormat + m.verts.length * calcsize vertexFormat + 4 * m.inds.length = _
  norm_num [calcsize, headerFormat, vertexFormat, itemSize, fileOf]
  ring

/-- C1, witness: the amended statement instantiated at the one-triangle
source. -/
theorem c1_file_length_amended_witness :
    compileMesh triSrc = .ok triMesh ∧
    ((fileOf triMesh).vcount = triMesh.verts.length ∧
      (fileOf triMesh).icount = triMesh.inds.length ∧
      (fileOf triMesh).length
        = 72 + (fileOf triMesh).vcount * 48 + (fileOf triMesh).icount * 4) :=
  ⟨rfl, c1_file_length_amended triSrc triMesh rfl⟩

set_option maxRecDepth 100000 in
/-- C2, counterexample.  Compiling the cube source succeeds, but running
the binary-mode validator on the produced file does not yield a report
with `valid = true` and no issues: it yields `valid = false` with a file
size mismatch (the validator expects 64 + 24*32 + 36*4 = 976 bytes while
the serializer wrote 72 + 24*48 + 36*4 = 1368). -/
theorem c2_cube_counterexample :
    (okPart (compileMesh cubeSrc)).map
        (fun m => ((validateCobj (fileOf m)).valid, (validateCobj (fileOf m)).issues))
      = some (false, [.sizeMismatch 976 1368])
    ∧ (false, ([.sizeMismatch 976 1368] : List BinIssue)) ≠ (true, []) := by
  exact ⟨by decide, by decide⟩

set_option maxRecDepth 100000 in
/-- C2, amended.  The validator rejects the binary the serializer produces
from the cube source: the report has `valid = false` and exactly one
issue, the expected-versus-actual file size mismatch (976 versus 1368
bytes); there are no warnings. -/
theorem c2_cube_amended :
    (okPart (compileMesh cubeSrc)).map (fun m => validateCobj (fileOf m))
      = some ⟨false, [.sizeMismatch 976 1368], []⟩ := by
  decide

/-- C5: a quad face is split by the fixed fan rule into the token sequence
(0,1,2),(0,2,3), and the Scenario A source (4 positions, one quad face
with a matching quad UV mapping) compiles to exactly 4 welded vertices and
the 6 indices [0,1,2,0,2,3], for every choice of coordinate values. -/
theorem c5_quad_fan_split :
    (∀ (P N : List Vec3) (T : List Vec2) (st : WeldState) (a b c d : String),
        weldFace P N T st [a, b, c, d] = weldTokens P N T st [a, b, c, a, c, d]) ∧
    (∀ x1 y1 z1 x2 y2 z2 x3 y3 z3 x4 y4 z4 u1 w1 u2 w2 u3 w3 u4 w4 : ℚ,
      (okPart (compileMesh
          [.v x1 y1 z1, .v x2 y2 z2, .v x3 y3 z3, .v x4 y4 z4,
           .vt u1 w1, .vt u2 w2, .vt u3 w3, .vt u4 w4,
           .f ["1/1", "2/2", "3/3", "4/4"]])).map (fun m => (m.verts.length, m.inds))
        = some (4, [0, 1, 2, 0, 2, 3])) := by
  constructor
  · intro P N T st a b c d
    rfl
  · intro x1 y1 z1 x2 y2 z2 x3 y3 z3 x4 y4 z4 u1 w1 u2 w2 u3 w3 u4 w4
    rfl

/-- C6: a source with no position lines or no face lines makes the
compiler fail with the EmptyGeometry error, and no mesh (hence no output
file) is ever produced from it: the check precedes welding, tangent
computation and the single write. -/
theorem c6_empty_geometry (src : List ObjLine)
    (h : objPositions src = [] ∨ objFaces src = []) :
    compileMesh src = .error .emptyGeometry ∧ ∀ m, compileMesh src ≠ .ok m := by
  have hmain : compileMesh src = .error .emptyGeometry := by
    unfold compileMesh
    rcases h with h | h <;> simp [h]
  refine ⟨hmain, fun m hm => ?_⟩
  rw [hmain] at hm
  exact Except.noConfusion hm

/-- C6, witness: a source consisting of a single position line and no
faces. -/
theorem c6_empty_geometry_witness :
    (objPositions [ObjLine.v 0 0 0] = [] ∨ objFaces [ObjLine.v 0 0 0] = []) ∧
    compileMesh [ObjLine.v 0 0 0] = .error .emptyGeometry :=
  ⟨Or.inr rfl, (c6_empty_geometry [ObjLine.v 0 0 0] (Or.inr rfl)).1⟩

/-- C10: the compiler does no bounds checking on face reference tokens.
A token whose 1-based position index exceeds the number of parsed
positions makes the run fail with an unhandled IndexError instead of a
structured error, and the token `0` is silently turned into index -1 and
resolved to the default attributes (position origin, normal +Y, texcoord
origin). -/
theorem c10_unchecked_indices :
    compileMesh [ObjLine.v 0 0 0, ObjLine.f ["2", "2", "2"]] = .error .indexError ∧
    (okPart (compileMesh [ObjLine.v 5 5 5, ObjLine.f ["0", "0", "0"]])).map
        (fun m => (m.verts, m.inds))
      = some ([⟨(0, 0, 0), (0, 1, 0), (0, 0)⟩], [0, 0, 0]) :=
  ⟨rfl, rfl⟩

/-- The cons equation of `weldFaces`, as an explicit bind. -/
theorem weldFaces_cons (P N : List Vec3) (T : List Vec2) (st : WeldState)
    (face : List String) (rest : List (List String)) :
    weldFaces P N T st (face :: rest)
      = (weldFace P N T st face).bind (fun st1 => weldFaces P N T st1 rest) := rfl

/-- C7: faces whose arity is neither 3 nor 4 are skipped: welding a face
list gives exactly the result of welding the kept faces, so the final
vertex and index counts are those of the remaining faces; and a 5-token
face by itself is a no-op on the welding state (processing continues, no
abort). -/
theorem c7_skip_bad_faces (P N : List Vec3) (T : List Vec2) :
    (∀ (st : WeldState) (faces : List (List String)),
        weldFaces P N T st faces = weldFaces P N T st (faces.filter goodArity)) ∧
    (∀ (st : WeldState) (a b c d e : String),
        weldFace P N T st [a, b, c, d, e] = .ok st) := by
  constructor
  · intro st faces
    induction faces generalizing st with
    | nil => rfl
    | cons face rest ih =>
      rw [List.filter_cons]
      cases hf : goodArity face with
      | true =>
        simp only [if_pos]
        rw [weldFaces_cons, weldFaces_cons]
        cases hw : weldFace P N T st face with
        | error e => rfl
        | ok st1 => exact ih st1
      | false =>
        simp only [Bool.false_eq_true, if_neg, not_false_iff]
        have hskip : weldFace P N T st face = .ok st := by
          simp [weldFace, hf]
        rw [weldFaces_cons, hskip]
        exact ih st
  · intro st a b c d e
    rfl

/-- A successful association-list lookup returns a recorded value. -/
theorem lookup_mem_values {l : List (String × Nat)} {s : String} {k : Nat}
    (h : l.lookup s = some k) : ∃ a, (a, k) ∈ l := by
  induction l with
  | nil => simp [List.lookup] at h
  | cons p rest ih =>
    obtain ⟨a, b⟩ := p
    rw [List.lookup_cons] at h
    cases hs : (s == a) with
    | true =>
      rw [hs] at h
      cases h
      exact ⟨a, List.mem_cons_self _ _⟩
    | false =>
      rw [hs] at h
      obtain ⟨x, hx⟩ := ih h
      exact ⟨x, List.mem_cons_of_mem _ hx⟩

/-- `weldToken` preserves the welding invariant. -/
theorem weldToken_inv {P N : List Vec3} {T : List Vec2} {st st1 : WeldState} {s : String}
    (h : weldToken P N T st s = .ok st1) (hi : WInv st) : WInv st1 := by
  unfold weldToken at h
  cases hlook : st.vmap.lookup s with
  | some k =>
    rw [hlook] at h
    cases h
    obtain ⟨a, ha⟩ := lookup_mem_values hlook
    refine ⟨fun j hj => ?_, hi.2⟩
    rcases List.mem_append.mp hj with hj | hj
    · exact hi.1 j hj
    · rw [List.mem_singleton.mp hj]
      exact hi.2 (a, k) ha
  | none =>
    rw [hlook] at h
    cases hres : resolveVertex P N T s with
    | none => rw [hres] at h; exact Except.noConfusion h
    | some w =>
      rw [hres] at h
      cases h
      constructor
      · intro j hj
        rcases List.mem_append.mp hj with hj | hj
        · calc j < st.verts.length := hi.1 j hj
            _ < (st.verts ++ [w]).length := by simp
        · rw [List.mem_singleton.mp hj]
          simp
      · intro p hp
        rcases List.mem_cons.mp hp with hp | hp
        · rw [hp]; simp
        · calc p.2 < st.verts.length := hi.2 p hp
            _ < (st.verts ++ [w]).length := by simp

/-- `weldTokens` preserves the welding invariant. -/
theorem weldTokens_inv {P N : List Vec3} {T : List Vec2} :
    ∀ {toks : List String} {st st1 : WeldState},
      weldTokens P N T st toks = .ok st1 → WInv st → WInv st1 := by
  intro toks
  induction toks with
  | nil => intro st st1 h hi; cases h; exact hi
  | cons s rest ih =>
    intro st st1 h hi
    cases hw : weldToken P N T st s with
    | error e =>
      rw [show weldTokens P N T st (s :: rest)
          = (weldToken P N T st s).bind (fun st2 => weldTokens P N T st2 rest) from rfl,
        hw] at h
      exact Except.noConfusion h
    | ok st2 =>
      rw [show weldTokens P N T st (s :: rest)
          = (weldToken P N T st s).bind (fun st2 => weldTokens P N T st2 rest) from rfl,
        hw] at h
      exact ih h (weldToken_inv hw hi)

/-- `weldFace` preserves the welding invariant. -/
theorem weldFace_inv {P N : List Vec3} {T : List Vec2} {st st1 : WeldState}
    {face : List String} (h : weldFace P N T st face = .ok st1) (hi : WInv st) :
    WInv st1 := by
  unfold weldFace at h
  by_cases hf : goodArity face
  · rw [if_pos hf] at h
    exact weldTokens_inv h hi
  · rw [if_neg hf] at h
    cases h
    exact hi

/-- `weldFaces` preserves the welding invariant. -/
theorem weldFaces_inv {P N : List Vec3} {T : List Vec2} :
    ∀ {faces : List (List String)} {st st1 : WeldState},
      weldFaces P N T st faces = .ok st1 → WInv st → WInv st1 := by
  intro faces
  induction faces with
  | nil => intro st st1 h hi; cases h; exact hi
  | cons face rest ih =>
    intro st st1 h hi
    cases hw : weldFace P N T st face with
    | error e => rw [weldFaces_cons, hw] at h; exact Except.noConfusion h
    | ok st2 =>
      rw [weldFaces_cons, hw] at h
      exact ih h (weldFace_inv hw hi)

/-- Inversion of the post-welding step. -/
theorem finishMesh_ok {st : WeldState} {m : Mesh} (h : finishMesh st = .ok m) :
    m.verts = st.verts ∧ m.inds = st.inds := by
  unfold finishMesh at h
  cases hv : st.verts with
  | nil => rw [hv] at h; exact Except.noConfusion h
  | cons w ws =>
    rw [hv] at h
    cases h
    exact ⟨rfl, rfl⟩

/-- Inversion of a successful compile: the welding loop succeeded from the
empty state and the mesh carries its vertex and index buffers. -/
theorem compileMesh_ok {src : List ObjLine} {m : Mesh}
    (h : compileMesh src = .ok m) :
    ∃ st : WeldState,
      weldFaces (objPositions src) (objNormals src) (objUVs src) ⟨[], [], []⟩
          (objFaces src) = .ok st
        ∧ m.verts = st.verts ∧ m.inds = st.inds := by
  unfold compileMesh at h
  by_cases hpf : (objPositions src).isEmpty || (objFaces src).isEmpty
  · rw [if_pos hpf] at h
    exact Except.noConfusion h
  · rw [if_neg hpf] at h
    cases hw : weldFaces (objPositions src) (objNormals src) (objUVs src) ⟨[], [], []⟩
        (objFaces src) with
    | error e => rw [hw] at h; exact Except.noConfusion h
    | ok st =>
      rw [hw] at h
      exact ⟨st, rfl, finishMesh_ok h⟩

/-- C9: every index a successful compile writes to the index buffer is
strictly below the final welded vertex count — each appended value is
either a previously recorded mapping or the vertex list length at the
moment of appending, and the vertex list only grows — so the index array
never references a nonexistent vertex record. -/
theorem c9_indices_in_range (src : List ObjLine) (m : Mesh)
    (h : compileMesh src = .ok m) :
    ∀ k ∈ m.inds, k < m.verts.length := by
  obtain ⟨st, hw, hv, hi⟩ := compileMesh_ok h
  have hinv : WInv st :=
    weldFaces_inv hw ⟨fun k hk => absurd hk (List.not_mem_nil k),
      fun p hp => absurd hp (List.not_mem_nil p)⟩
  intro k hk
  rw [hv]
  exact hinv.1 k (hi ▸ hk)

/-- C9, witness: instantiated at the one-triangle source. -/
theorem c9_indices_in_range_witness :
    compileMesh triSrc = .ok triMesh ∧ ∀ k ∈ triMesh.inds, k < triMesh.verts.length :=
  ⟨rfl, c9_indices_in_range triSrc triMesh rfl⟩

/-- Association-list lookup succeeds exactly on recorded keys. -/
theorem lookup_isSome_iff (l : List (String × Nat)) (s : String) :
    (l.lookup s).isSome = true ↔ s ∈ l.map Prod.fst := by
  induction l with
  | nil => simp [List.lookup]
  | cons p rest ih =>
    obtain ⟨a, b⟩ := p
    rw [List.lookup_cons]
    cases hs : (s == a) with
    | true =>
      simp only [Option.isSome_some, List.map_cons, List.mem_cons]
      exact ⟨fun _ => Or.inl (by simpa using hs), fun _ => trivial⟩
    | false =>
      simp only [List.map_cons, List.mem_cons]
      rw [ih]
      constructor
      · exact fun h => Or.inr h
      · rintro (h | h)
        · exact absurd hs (by simp [h])
        · exact h

/-- How one welding step changes the key set and the vertex count: a seen
token changes nothing, a fresh token adds itself and one vertex. -/
theorem weldToken_keys {P N : List Vec3} {T : List Vec2} {st st1 : WeldState} {s : String}
    (h : weldToken P N T st s = .ok st1) :
    (s ∈ keysOf st → st1.verts.length = st.verts.length ∧ keysOf st1 = keysOf st) ∧
    (s ∉ keysOf st → st1.verts.length = st.verts.length + 1 ∧ keysOf st1 = s :: keysOf st) := by
  unfold weldToken at h
  cases hlook : st.vmap.lookup s with
  | some k =>
    rw [hlook] at h
    cases h
    have hmem : s ∈ keysOf st := by
      rw [keysOf, ← lookup_isSome_iff, hlook]
      rfl
    exact ⟨fun _ => ⟨rfl, rfl⟩, fun hn => absurd hmem hn⟩
  | none =>
    rw [hlook] at h
    cases hres : resolveVertex P N T s with
    | none => rw [hres] at h; exact Except.noConfusion h
    | some w =>
      rw [hres] at h
      cases h
      have hnmem : s ∉ keysOf st := by
        rw [keysOf, ← lookup_isSome_iff, hlook]
        simp
      exact ⟨fun hm => absurd hm hnmem, fun _ => ⟨by simp, rfl⟩⟩

/-- Welding a token list: the vertex count stays equal to the number of
recorded keys, and the final key set is the fold of the tokens into the
initial key set. -/
theorem weldTokens_count {P N : List Vec3} {T : List Vec2} :
    ∀ {toks : List String} {st st1 : WeldState},
      weldTokens P N T st toks = .ok st1 →
      st.verts.length = (keysOf st).length →
      st1.verts.length = (keysOf st1).length ∧ keysOf st1 = insKeys (keysOf st) toks := by
  intro toks
  induction toks with
  | nil =>
    intro st st1 h hlen
    cases h
    exact ⟨hlen, rfl⟩
  | cons s rest ih =>
    intro st st1 h hlen
    cases hw : weldToken P N T st s with
    | error e =>
      rw [show weldTokens P N T st (s :: rest)
          = (weldToken P N T st s).bind (fun st2 => weldTokens P N T st2 rest) from rfl,
        hw] at h
      exact Except.noConfusion h
    | ok st2 =>
      rw [show weldTokens P N T st (s :: rest)
          = (weldToken P N T st s).bind (fun st2 => weldTokens P N T st2 rest) from rfl,
        hw] at h
      by_cases hmem : s ∈ keysOf st
      · obtain ⟨hl2, hk2⟩ := (weldToken_keys hw).1 hmem
        obtain ⟨ha, hb⟩ := ih h (by rw [hl2, hk2, hlen])
        refine ⟨ha, ?_⟩
        rw [hb, hk2]
        show insKeys (keysOf st) rest = insKeys (keysOf st) (s :: rest)
        rw [insKeys, insKeys, List.foldl_cons, if_pos hmem]
      · obtain ⟨hl2, hk2⟩ := (weldToken_keys hw).2 hmem
        obtain ⟨ha, hb⟩ := ih h (by rw [hl2, hk2, List.length_cons, hlen])
        refine ⟨ha, ?_⟩
        rw [hb, hk2]
        show insKeys (s :: keysOf st) rest = insKeys (keysOf st) (s :: rest)
        rw [insKeys, insKeys, List.foldl_cons, if_neg hmem]

/-- Welding a concatenation is welding the parts in sequence. -/
theorem weldTokens_append (P N : List Vec3) (T : List Vec2) :
    ∀ (xs ys : List String) (st : WeldState),
      weldTokens P N T st (xs ++ ys)
        = (weldTokens P N T st xs).bind (fun st1 => weldTokens P N T st1 ys) := by
  intro xs
  induction xs with
  | nil => intro ys st; rfl
  | cons s rest ih =>
    intro ys st
    rw [List.cons_append]
    rw [show weldTokens P N T st (s :: (rest ++ ys))
        = (weldToken P N T st s).bind (fun st2 => weldTokens P N T st2 (rest ++ ys)) from rfl]
    rw [show weldTokens P N T st (s :: rest)
        = (weldToken P N T st s).bind (fun st2 => weldTokens P N T st2 rest) from rfl]
    cases hw : weldToken P N T st s with
    | error e => rfl
    | ok st2 => exact ih ys st2

/-- Welding a face list is welding its kept, expanded token sequence. -/
theorem weldFaces_eq_weldTokens (P N : List Vec3) (T : List Vec2) :
    ∀ (faces : List (List String)) (st : WeldState),
      weldFaces P N T st faces = weldTokens P N T st (keptTokens faces) := by
  intro faces
  induction faces with
  | nil => intro st; rfl
  | cons face rest ih =>
    intro st
    rw [weldFaces_cons]
    by_cases hf : goodArity face
    · have hkept : keptTokens (face :: rest) = expandFace face ++ keptTokens rest := by
        rw [keptTokens, List.filter_cons, if_pos hf, List.map_cons, List.flatten_cons]
        rfl
      rw [hkept, weldTokens_append]
      have hface : weldFace P N T st face = weldTokens P N T st (expandFace face) := by
        rw [weldFace, if_pos hf]
      rw [hface]
      cases hw : weldTokens P N T st (expandFace face) with
      | error e => rfl
      | ok st1 => exact ih st1
    · have hkept : keptTokens (face :: rest) = keptTokens rest := by
        rw [keptTokens, List.filter_cons, if_neg hf]
        rfl
      have hface : weldFace P N T st face = .ok st := by
        rw [weldFace, if_neg hf]
      rw [hkept, hface]
      exact ih st

/-- Folding tokens into the key set collects exactly the union of the
token strings. -/
theorem insKeys_toFinset : ∀ (toks ks : List String),
    (insKeys ks toks).toFinset = ks.toFinset ∪ toks.toFinset := by
  intro toks
  induction toks with
  | nil => intro ks; simp [insKeys]
  | cons s rest ih =>
    intro ks
    rw [show insKeys ks (s :: rest) = insKeys (if s ∈ ks then ks else s :: ks) rest from rfl,
      ih]
    by_cases hm : s ∈ ks
    · rw [if_pos hm, List.toFinset_cons]
      ext x
      simp only [Finset.mem_union, List.mem_toFinset, Finset.mem_insert]
      constructor
      · rintro (hx | hx)
        · exact Or.inl hx
        · exact Or.inr (Or.inr hx)
      · rintro (hx | hx | hx)
        · exact Or.inl hx
        · exact Or.inl (hx ▸ hm)
        · exact Or.inr hx
    · rw [if_neg hm, List.toFinset_cons, List.toFinset_cons]
      ext x
      simp only [Finset.mem_union, List.mem_toFinset, Finset.mem_insert]
      tauto

/-- Folding tokens into a duplicate-free key set keeps it duplicate-free. -/
theorem insKeys_nodup : ∀ (toks ks : List String), ks.Nodup → (insKeys ks toks).Nodup := by
  intro toks
  induction toks with
  | nil => intro ks h; exact h
  | cons s rest ih =>
    intro ks h
    rw [show insKeys ks (s :: rest) = insKeys (if s ∈ ks then ks else s :: ks) rest from rfl]
    by_cases hm : s ∈ ks
    · rw [if_pos hm]; exact ih ks h
    · rw [if_neg hm]; exact ih (s :: ks) (List.nodup_cons.mpr ⟨hm, h⟩)

/-- The number of keys collected from an empty start equals the number of
distinct tokens. -/
theorem insKeys_length_eq_dedup (toks : List String) :
    (insKeys [] toks).length = toks.dedup.length := by
  have hnd : (insKeys [] toks).Nodup := insKeys_nodup toks [] List.nodup_nil
  have hfs : (insKeys [] toks).toFinset = toks.toFinset := by
    rw [insKeys_toFinset]
    simp
  calc (insKeys [] toks).length = (insKeys [] toks).toFinset.card :=
        (List.toFinset_card_of_nodup hnd).symm
    _ = toks.toFinset.card := by rw [hfs]
    _ = toks.dedup.length := List.card_toFinset toks

/-- C3, counterexample.  The tokens `1` and `1//` resolve to the same
(position, texcoord, normal) index triple, yet compiling a face that uses
both produces two welded vertices with indices 0 and 1: the welder keys on
the literal token string, not on the resolved triple, so the vertex array
holds more than one entry for this triple. -/
theorem c3_counterexample :
    tokenIdxs "1" = tokenIdxs "1//" ∧
    (okPart (compileMesh c3Src)).map (fun m => (m.verts.length, m.inds))
      = some (2, [0, 1, 0]) :=
  ⟨rfl, rfl⟩

/-- C3, amended.  The welder deduplicates by the literal token string: for
every successful compile, the welded vertex count equals the number of
distinct token strings among the kept, fan-expanded faces — tokens written
differently produce distinct vertices even when they resolve to the same
attribute triple. -/
theorem c3_weld_by_token_string (src : List ObjLine) (m : Mesh)
    (h : compileMesh src = .ok m) :
    m.verts.length = (keptTokens (objFaces src)).dedup.length := by
  obtain ⟨st, hw, hv, _⟩ := compileMesh_ok h
  rw [weldFaces_eq_weldTokens] at hw
  obtain ⟨ha, hb⟩ := weldTokens_count hw rfl
  rw [hv, ha, hb]
  exact insKeys_length_eq_dedup _

/-- C3, witness: the amended statement instantiated at the one-triangle
source. -/
theorem c3_weld_by_token_string_witness :
    compileMesh triSrc = .ok triMesh ∧
    triMesh.verts.length = (keptTokens (objFaces triSrc)).dedup.length :=
  ⟨rfl, c3_weld_by_token_string triSrc triMesh rfl⟩

/-- Folding the component-wise minimum over copies of the same point is
the identity. -/
theorem aabbMinOf_const (p : Vec3) :
    ∀ ps : List Vec3, (∀ q ∈ ps, q = p) → aabbMinOf p ps = p := by
  intro ps
  induction ps with
  | nil => intro _; rfl
  | cons q rest ih =>
    intro hall
    have hq : q = p := hall q (List.mem_cons_self q rest)
    have hmin : vmin3 p q = p := by
      rw [hq]
      simp [vmin3]
    rw [aabbMinOf, List.foldl_cons, hmin]
    exact ih fun r hr => hall r (List.mem_cons_of_mem q hr)

/-- Folding the component-wise maximum over copies of the same point is
the identity. -/
theorem aabbMaxOf_const (p : Vec3) :
    ∀ ps : List Vec3, (∀ q ∈ ps, q = p) → aabbMaxOf p ps = p := by
  intro ps
  induction ps with
  | nil => intro _; rfl
  | cons q rest ih =>
    intro hall
    have hq : q = p := hall q (List.mem_cons_self q rest)
    have hmax : vmax3 p q = p := by
      rw [hq]
      simp [vmax3]
    rw [aabbMaxOf, List.foldl_cons, hmax]
    exact ih fun r hr => hall r (List.mem_cons_of_mem q hr)

/-- C8, counterexample.  On a source whose vertices all coincide, the
source-mode validator records the degeneracy in the issues list (not the
warnings list), and this alone makes the report invalid — contradicting
the claim that the condition is a warning only and does not affect the
valid flag. -/
theorem c8_degenerate_counterexample :
    (validateObj degSrc).issues = [.degenerateGeometry] ∧
    (validateObj degSrc).warnings = [] ∧
    (validateObj degSrc).valid = false := by
  have h1 : (validateObj degSrc).issues
      = degenerateIssues [(1, 2, 3), (1, 2, 3), (1, 2, 3)] := rfl
  have h2 : degenerateIssues [(1, 2, 3), (1, 2, 3), (1, 2, 3)]
      = [.degenerateGeometry] := by
    norm_num [degenerateIssues, aabbMinOf, aabbMaxOf, vmin3, vmax3]
  have h3 : (validateObj degSrc).valid = (validateObj degSrc).issues.isEmpty := rfl
  refine ⟨h1.trans h2, rfl, ?_⟩
  rw [h3, h1, h2]
  rfl

/-- C8, amended.  For every source file whose parsed vertex positions all
coincide (and exist), the source-mode validator records the degeneracy as
an entry of the issues list, and the report's valid flag is false — the
condition is a validation failure, not a mere warning. -/
theorem c8_degenerate_amended (src : List ObjLine) (p : Vec3)
    (hne : objPositions src ≠ [])
    (hall : ∀ q ∈ objPositions src, q = p) :
    SrcIssue.degenerateGeometry ∈ (validateObj src).issues ∧
    (validateObj src).valid = false := by
  have hdeg : degenerateIssues (objPositions src) = [.degenerateGeometry] := by
    cases hv : objPositions src with
    | nil => exact absurd hv hne
    | cons q ps =>
      have hq : q = p := hall q (by rw [hv]; exact List.mem_cons_self q ps)
      have hps : ∀ r ∈ ps, r = q := by
        intro r hr
        rw [hq]
        exact hall r (by rw [hv]; exact List.mem_cons_of_mem q hr)
      rw [degenerateIssues, aabbMinOf_const q ps hps, aabbMaxOf_const q ps hps]
      norm_num
  have hiss : (validateObj src).issues
      = (if (objPositions src).length = 0 then [SrcIssue.noVertices] else [])
        ++ (if (objFaces src).length = 0 then [SrcIssue.noFaces] else [])
        ++ normalIssues (objNormals src)
        ++ faceIssues (objPositions src).length (objUVs src).length
            (objNormals src).length (objFaces src)
        ++ degenerateIssues (objPositions src) := rfl
  have hmem : SrcIssue.degenerateGeometry ∈ (validateObj src).issues := by
    rw [hiss, hdeg]
    exact List.mem_append.mpr (Or.inr (List.mem_singleton.mpr rfl))
  refine ⟨hmem, ?_⟩
  have hval : (validateObj src).valid = (validateObj src).issues.isEmpty := rfl
  rw [hval]
  cases hcase : (validateObj src).issues with
  | nil => rw [hcase] at hmem; exact absurd hmem (List.not_mem_nil _)
  | cons a l => rfl

/-- C8, witness: the amended statement instantiated at the coincident
source. -/
theorem c8_degenerate_amended_witness :
    (objPositions degSrc ≠ [] ∧ ∀ q ∈ objPositions degSrc, q = ((1 : ℚ), (2 : ℚ), (3 : ℚ))) ∧
    (SrcIssue.degenerateGeometry ∈ (validateObj degSrc).issues ∧
      (validateObj degSrc).valid = false) :=
  ⟨⟨by decide, by decide⟩,
    c8_degenerate_amended degSrc ((1 : ℚ), (2 : ℚ), (3 : ℚ)) (by decide) (by decide)⟩

/-- The dot product of a vector with itself is nonnegative. -/
theorem rdot_self_nonneg (v : RV3) : 0 ≤ rdot v v := by
  have h : rdot v v = v.1 ^ 2 + v.2.1 ^ 2 + v.2.2 ^ 2 := by
    unfold rdot; ring
  rw [h]
  positivity

/-- The squared Euclidean norm is the self dot product. -/
theorem rnorm_sq (v : RV3) : rnorm v ^ 2 = rdot v v :=
  Real.sq_sqrt (rdot_self_nonneg v)

/-- For a unit normal, the dominant-axis fallback tangent is exactly unit
length and exactly perpendicular to the normal. -/
theorem fallbackTangent_props {n : RV3} (hn : rdot n n = 1) :
    rnorm (fallbackTangent n) = 1 ∧ rdot (fallbackTangent n) n = 0 := by
  unfold fallbackTangent
  by_cases hxy : |n.1| > |n.2.1|
  · rw [if_pos hxy]
    have hx0 : n.1 ≠ 0 := by
      intro h0
      rw [h0, abs_zero] at hxy
      exact absurd hxy (not_lt.mpr (abs_nonneg _))
    have hs : 0 < n.1 * n.1 + n.2.2 * n.2.2 := by
      nlinarith [mul_self_nonneg n.2.2, mul_self_pos.mpr hx0]
    have hsq : Real.sqrt (n.1 * n.1 + n.2.2 * n.2.2) ^ 2 = n.1 * n.1 + n.2.2 * n.2.2 :=
      Real.sq_sqrt (le_of_lt hs)
    have hsne : Real.sqrt (n.1 * n.1 + n.2.2 * n.2.2) ≠ 0 := by
      intro h0
      rw [h0] at hsq
      nlinarith
    constructor
    · show Real.sqrt (rdot _ _) = 1
      have hd : rdot
          (-n.2.2 * (1 / Real.sqrt (n.1 * n.1 + n.2.2 * n.2.2)), 0,
            n.1 * (1 / Real.sqrt (n.1 * n.1 + n.2.2 * n.2.2)))
          (-n.2.2 * (1 / Real.sqrt (n.1 * n.1 + n.2.2 * n.2.2)), 0,
            n.1 * (1 / Real.sqrt (n.1 * n.1 + n.2.2 * n.2.2)))
          = (n.1 * n.1 + n.2.2 * n.2.2) / Real.sqrt (n.1 * n.1 + n.2.2 * n.2.2) ^ 2 := by
        unfold rdot
        field_simp
        ring
      rw [hd, hsq, div_self (ne_of_gt hs), Real.sqrt_one]
    · unfold rdot
      ring
  · rw [if_neg hxy]
    have habs : |n.1| ≤ |n.2.1| := not_lt.mp hxy
    have h11 : n.1 * n.1 ≤ n.2.1 * n.2.1 := by
      have := mul_self_le_mul_self (abs_nonneg n.1) habs
      rwa [abs_mul_abs_self, abs_mul_abs_self] at this
    have hn2 : n.1 * n.1 + n.2.1 * n.2.1 + n.2.2 * n.2.2 = 1 := by
      unfold rdot at hn
      exact hn
    have hs : 0 < n.2.1 * n.2.1 + n.2.2 * n.2.2 := by
      nlinarith [mul_self_nonneg n.2.2, mul_self_nonneg n.2.1, mul_self_nonneg n.1]
    have hsq : Real.sqrt (n.2.1 * n.2.1 + n.2.2 * n.2.2) ^ 2 = n.2.1 * n.2.1 + n.2.2 * n.2.2 :=
      Real.sq_sqrt (le_of_lt hs)
    constructor
    · show Real.sqrt (rdot _ _) = 1
      have hd : rdot
          (0, n.2.2 * (1 / Real.sqrt (n.2.1 * n.2.1 + n.2.2 * n.2.2)),
            -n.2.1 * (1 / Real.sqrt (n.2.1 * n.2.1 + n.2.2 * n.2.2)))
          (0, n.2.2 * (1 / Real.sqrt (n.2.1 * n.2.1 + n.2.2 * n.2.2)),
            -n.2.1 * (1 / Real.sqrt (n.2.1 * n.2.1 + n.2.2 * n.2.2)))
          = (n.2.1 * n.2.1 + n.2.2 * n.2.2) / Real.sqrt (n.2.1 * n.2.1 + n.2.2 * n.2.2) ^ 2 := by
        unfold rdot
        field_simp
        ring
      rw [hd, hsq, div_self (ne_of_gt hs), Real.sqrt_one]
    · unfold rdot
      ring

/-- For a unit normal, removing the projection leaves a vector exactly
perpendicular to the normal. -/
theorem gsOrtho_dot {n : RV3} (hn : rdot n n = 1) (t : RV3) :
    rdot (gsOrtho n t) n = 0 := by
  unfold gsOrtho rdot rsub rsmul at *
  linear_combination (-(t.1 * n.1 + t.2.1 * n.2.1 + t.2.2 * n.2.2)) * hn

/-- For a unit normal, the per-vertex output of the tangent calculator is
exactly unit length and exactly perpendicular to the normal, in both the
normalization branch and the fallback branch. -/
theorem gsTangent_unit {n : RV3} (hn : rdot n n = 1) (t : RV3) :
    rnorm (gsTangent n t) = 1 ∧ rdot (gsTangent n t) n = 0 := by
  unfold gsTangent
  by_cases hbig : rnorm (gsOrtho n t) > 1e-6
  · rw [if_pos hbig]
    have hpos : (0 : ℝ) < rnorm (gsOrtho n t) := lt_trans (by norm_num) hbig
    have hne : rnorm (gsOrtho n t) ≠ 0 := ne_of_gt hpos
    constructor
    · have hd : rdot (rsmul (1 / rnorm (gsOrtho n t)) (gsOrtho n t))
          (rsmul (1 / rnorm (gsOrtho n t)) (gsOrtho n t))
          = (1 / rnorm (gsOrtho n t)) ^ 2 * rdot (gsOrtho n t) (gsOrtho n t) := by
        unfold rdot rsmul
        ring
      show Real.sqrt (rdot _ _) = 1
      rw [hd, ← rnorm_sq (gsOrtho n t), one_div, inv_pow,
        inv_mul_cancel₀ (pow_ne_zero 2 hne), Real.sqrt_one]
    · have hd : rdot (rsmul (1 / rnorm (gsOrtho n t)) (gsOrtho n t)) n
          = (1 / rnorm (gsOrtho n t)) * rdot (gsOrtho n t) n := by
        unfold rdot rsmul
        ring
      rw [hd, gsOrtho_dot hn, mul_zero]
  · rw [if_neg hbig]
    exact fallbackTangent_props hn

/-- Inverting an indexed read of a zipWith. -/
theorem zipWith_get?_some {α β γ : Type} (f : α → β → γ) :
    ∀ (as : List α) (bs : List β) (i : Nat) (c : γ),
      (List.zipWith f as bs).get? i = some c →
      ∃ a b, as.get? i = some a ∧ bs.get? i = some b ∧ c = f a b := by
  intro as
  induction as with
  | nil => intro bs i c h; simp [List.zipWith] at h
  | cons a as ih =>
    intro bs i c h
    cases bs with
    | nil => simp [List.zipWith] at h
    | cons b bs =>
      cases i with
      | zero =>
        rw [List.zipWith_cons_cons] at h
        rw [List.get?_cons_zero] at h
        cases h
        exact ⟨a, b, rfl, rfl, rfl⟩
      | succ j =>
        rw [List.zipWith_cons_cons] at h
        rw [List.get?_cons_succ] at h
        obtain ⟨x, y, hx, hy, hc⟩ := ih bs j c h
        exact ⟨x, y, by rw [List.get?_cons_succ]; exact hx,
          by rw [List.get?_cons_succ]; exact hy, hc⟩

/-- Inversion of a successful tangent calculation: the accumulation loop
succeeded and the result pairs each normal with its accumulated tangent
through the Gram-Schmidt step. -/
theorem calcTangents_some {pos normals : List RV3} {uvs : List RV2} {indices : List Nat}
    {ts : List RV3} (h : calcTangents pos normals uvs indices = some ts) :
    ∃ acc, accumGo pos uvs indices (List.replicate pos.length ((0 : ℝ), (0 : ℝ), (0 : ℝ)))
        = some acc
      ∧ ts = List.zipWith gsTangent normals acc := by
  unfold calcTangents at h
  cases hacc : accumGo pos uvs indices
      (List.replicate pos.length ((0 : ℝ), (0 : ℝ), (0 : ℝ))) with
  | none => rw [hacc] at h; exact Option.noConfusion h
  | some acc =>
    rw [hacc] at h
    replace h : (if pos.length ≤ normals.length then
        some (List.zipWith gsTangent normals acc) else none) = some ts := h
    by_cases hle : pos.length ≤ normals.length
    · rw [if_pos hle] at h
      cases h
      exact ⟨acc, rfl, rfl⟩
    · rw [if_neg hle] at h
      exact Option.noConfusion h

/-- C4, amended.  When every normal fed to `calculate_tangents_bitangents`
is unit length, every produced tangent is unit length within 1e-3 and its
dot product with the corresponding normal is within 1e-3 of zero (both
hold exactly), covering the degenerate-UV and no-triangle cases through
the fallback branch.  The unit-normal hypothesis is necessary: see the
counterexample. -/
theorem c4_tangent_amended (pos normals : List RV3) (uvs : List RV2) (indices : List Nat)
    (hunit : ∀ n ∈ normals, rdot n n = 1) :
    ∀ (ts : List RV3) (i : Nat) (t n : RV3),
      calcTangents pos normals uvs indices = some ts →
      ts.get? i = some t → normals.get? i = some n →
      |rnorm t - 1| ≤ 1e-3 ∧ |rdot t n| ≤ 1e-3 := by
  intro ts i t n hcalc hts hni
  obtain ⟨acc, hacc, hzip⟩ := calcTangents_some hcalc
  rw [hzip] at hts
  obtain ⟨n2, a, hn2, ha, hteq⟩ := zipWith_get?_some gsTangent normals acc i t hts
  rw [hni] at hn2
  cases hn2
  obtain ⟨h1, h2⟩ := gsTangent_unit (hunit n (List.get?_mem hni)) a
  rw [hteq, h1, h2]
  norm_num

/-- C4, counterexample.  With the non-unit normal (2,0,0) on a perfectly
ordinary triangle (non-degenerate UVs), the calculator outputs the tangent
(-1,0,0) for every vertex: it is unit length, but its dot product with the
vertex normal is -2, far outside the claimed 1e-3 orthogonality bound —
Gram-Schmidt subtraction only orthogonalizes against unit normals, and
nothing normalizes the normals first. -/
theorem c4_tangent_counterexample :
    calcTangents [((0:ℝ), 0, 0), (1, 0, 0), (0, 1, 0)]
        [((2:ℝ), 0, 0), (2, 0, 0), (2, 0, 0)]
        [((0:ℝ), 0), (1, 0), (0, 1)] [0, 1, 2]
      = some [((-1:ℝ), 0, 0), ((-1:ℝ), 0, 0), ((-1:ℝ), 0, 0)]
    ∧ ¬ (|rdot ((-1:ℝ), 0, 0) ((2:ℝ), 0, 0)| ≤ 1e-3) := by
  constructor
  · have htri : triTangent ((0:ℝ), 0, 0) (1, 0, 0) (0, 1, 0) ((0:ℝ), 0) (1, 0) (0, 1)
        = ((1:ℝ), 0, 0) := by
      norm_num [triTangent, rsub, rsmul, -Prod.mk_zero_zero]
    have hacc : accumGo [((0:ℝ), 0, 0), (1, 0, 0), (0, 1, 0)]
        [((0:ℝ), 0), (1, 0), (0, 1)] [0, 1, 2]
        [((0:ℝ), 0, 0), ((0:ℝ), 0, 0), ((0:ℝ), 0, 0)]
        = some [((1:ℝ), 0, 0), (1, 0, 0), (1, 0, 0)] := by
      norm_num [accumGo, addAt, radd, htri, -Prod.mk_zero_zero]
    have hgs : gsTangent ((2:ℝ), 0, 0) ((1:ℝ), 0, 0) = ((-1:ℝ), 0, 0) := by
      have hO : gsOrtho ((2:ℝ), 0, 0) ((1:ℝ), 0, 0) = ((-3:ℝ), 0, 0) := by
        norm_num [gsOrtho, rsub, rsmul, rdot, -Prod.mk_zero_zero]
      have hnorm : rnorm ((-3:ℝ), 0, 0) = 3 := by
        have h9 : rdot ((-3:ℝ), 0, 0) ((-3:ℝ), 0, 0) = 9 := by
          norm_num [rdot, -Prod.mk_zero_zero]
        rw [rnorm, h9, show ((9:ℝ)) = 3 ^ 2 by norm_num,
          Real.sqrt_sq (by norm_num : (0:ℝ) ≤ 3)]
      rw [gsTangent, hO, hnorm, if_pos (by norm_num : (3:ℝ) > 1e-6)]
      norm_num [rsmul, -Prod.mk_zero_zero]
    unfold calcTangents
    norm_num [hacc, hgs, List.replicate, -Prod.mk_zero_zero]
  · have hd : rdot ((-1:ℝ), 0, 0) ((2:ℝ), 0, 0) = -2 := by
      norm_num [rdot, -Prod.mk_zero_zero]
    rw [hd, abs_of_nonpos (by norm_num : (-2:ℝ) ≤ 0)]
    norm_num

/-- C4, witness: the amended statement instantiated at a one-vertex input
with the unit normal (0,0,1). -/
theorem c4_tangent_amended_witness :
    (∀ n ∈ [((0:ℝ), 0, 1)], rdot n n = 1) ∧
    (∀ (ts : List RV3) (i : Nat) (t n : RV3),
      calcTangents [((0:ℝ), 0, 0)] [((0:ℝ), 0, 1)] [((0:ℝ), 0)] [] = some ts →
      ts.get? i = some t → [((0:ℝ), 0, 1)].get? i = some n →
      |rnorm t - 1| ≤ 1e-3 ∧ |rdot t n| ≤ 1e-3) := by
  have h : ∀ n ∈ [((0:ℝ), 0, 1)], rdot n n = 1 := by
    intro n hn
    rw [List.mem_singleton.mp hn]
    norm_num [rdot]
  exact ⟨h, c4_tangent_amended _ _ _ _ h⟩
